import Mathlib

/-!
Shallow embedding of the bot-forge in-browser analytics engine
(`frontend/src/components/DatasetCard.tsx`): the dataset profiler
`analyzeFrontendData`, the bag-of-words vectorizer, the cosine-similarity
ranker `vectorSearch`, and the chat query handler `handleSendMessage`.
JavaScript numbers are modelled as rationals where the code only ever
produces rationals, and as reals where square roots occur; JavaScript
values in data rows are modelled by the `Value` type below.
-/

/-- A JavaScript value as it occurs in a data row: a string, a number,
`null`, or `undefined` (the result of reading an absent field). -/
inductive Value where
  | str (s : String)
  | num (q : ℚ)
  | null
  | undef
deriving DecidableEq

/-- Numeric value of a list of decimal digit characters. -/
def digitsVal (cs : List Char) : ℕ :=
  cs.foldl (fun n c => 10 * n + (c.toNat - '0'.toNat)) 0

/-- Strip leading and trailing whitespace from a character list
(the character-level model of JavaScript's String.prototype.trim). -/
def trimChars (cs : List Char) : List Char :=
  ((cs.dropWhile Char.isWhitespace).reverse.dropWhile Char.isWhitespace).reverse

/-- Models the JavaScript `Number(string)` coercion on the fragment of
strings this code base feeds it: after trimming whitespace the empty
string coerces to 0, an optional sign followed by decimal digits with an
optional fractional part parses as that rational, and anything else is
NaN, represented as `none`. -/
def jsStringToNumber (s : String) : Option ℚ :=
  let cs := trimChars s.toList
  if cs.isEmpty then some 0
  else
    let signVal : ℚ :=
      match cs with
      | '-' :: _ => -1
      | _ => 1
    let body : List Char :=
      match cs with
      | '-' :: r => r
      | '+' :: r => r
      | r => r
    let intPart := body.takeWhile Char.isDigit
    let afterInt := body.dropWhile Char.isDigit
    match afterInt with
    | [] => if intPart.isEmpty then none else some (signVal * digitsVal intPart)
    | '.' :: frac =>
      if frac.all Char.isDigit && !(intPart.isEmpty && frac.isEmpty) then
        some (signVal * ((digitsVal intPart : ℚ) + (digitsVal frac : ℚ) / (10 ^ frac.length)))
      else none
    | _ => none

/-- Models `Number(v)` on row values: `Number(null) = 0`,
`Number(undefined) = NaN` (`none`), strings via `jsStringToNumber`.
`(jsToNumber v).isSome` is the model of `!isNaN(Number(v))`. -/
def jsToNumber : Value → Option ℚ
  | Value.str s => jsStringToNumber s
  | Value.num q => some q
  | Value.null => some 0
  | Value.undef => none

/-- Models `String(q)` for the numbers this code base stores as object
keys; exact for integral rationals. -/
def jsNumToString (q : ℚ) : String :=
  if q.den = 1 then toString q.num else toString q

/-- Models the JavaScript `String(v)` coercion performed when a value is
used as an object key: `null` becomes "null", `undefined` becomes
"undefined". -/
def jsToString : Value → String
  | Value.str s => s
  | Value.num q => jsNumToString q
  | Value.null => "null"
  | Value.undef => "undefined"

/-- A data row: field names mapped to values, in declaration order. -/
abbrev Record := List (String × Value)

/-- `row[f]` in JavaScript: the stored value, or `undefined` when the
field is absent. -/
def getField (row : Record) (f : String) : Value :=
  match row.lookup f with
  | some v => v
  | none => Value.undef

/-- `Object.keys(data[0])`: the fields of the first record; empty for an
empty record list. -/
def fieldsOf (data : List Record) : List String :=
  match data with
  | [] => []
  | r :: _ => r.map Prod.fst

/-- `data.map(row => row[field])`. -/
def valuesOf (data : List Record) (f : String) : List Value :=
  data.map fun row => getField row f

/-- The filter `v != null && v !== ''`: `null` and `undefined` are
missing (loose equality to null catches both), as is the empty string. -/
def isNonMissing : Value → Bool
  | Value.null => false
  | Value.undef => false
  | Value.str s => !(s == "")
  | Value.num _ => true

/-- `values.filter(v => v != null && v !== '')`. -/
def nonNullValuesOf (data : List Record) (f : String) : List Value :=
  (valuesOf data f).filter isNonMissing

/-- `nonNullValues.filter(v => !isNaN(Number(v)))`. -/
def numberValuesOf (data : List Record) (f : String) : List Value :=
  (nonNullValuesOf data f).filter fun v => (jsToNumber v).isSome

/-- The `summary` object accumulated by `analyzeFrontendData`.
`dataTypes` is an association list in field insertion order. -/
structure Summary where
  totalRecords : ℕ
  uniqueValues : ℕ
  missingValues : ℕ
  dataTypes : List (String × ℕ)
deriving DecidableEq

/-- One iteration of the `fields.forEach` loop computing the summary:
a field is recorded in `dataTypes` when strictly more than 80% of its
non-missing values parse as numbers, otherwise its distinct non-missing
value count is added to `uniqueValues`; the field's missing count is
added to `missingValues` either way.  The source test is
`numberValues.length > nonNullValues.length * 0.8`; on integer counts
the double-precision comparison agrees with the exact rational one
(`n * 0.8` rounds to exactly `4n/5` whenever that is an integer, and
otherwise the two sides differ by at least 1/5, far above the rounding
error), so it is embedded as the equivalent integer comparison
`5 * numberValues.length > 4 * nonNullValues.length`. -/
def summaryStep (data : List Record) (acc : Summary) (f : String) : Summary :=
  let values := valuesOf data f
  let nonNull := nonNullValuesOf data f
  let nums := numberValuesOf data f
  let acc1 :=
    if 5 * nums.length > 4 * nonNull.length then
      { acc with dataTypes := acc.dataTypes ++ [(f, nums.length)] }
    else
      { acc with uniqueValues := acc.uniqueValues + nonNull.dedup.length }
  { acc1 with missingValues := acc1.missingValues + (values.length - nonNull.length) }

/-- The summary fold over the fields of the first record. -/
def summaryOf (data : List Record) : Summary :=
  (fieldsOf data).foldl (summaryStep data) ⟨data.length, 0, 0, []⟩

/-- `data.slice(0, 10).map((_, i) => "Data Point " + (i + 1))`. -/
def trendLabels (data : List Record) : List String :=
  (data.take 10).mapIdx fun i _ => "Data Point " ++ toString (i + 1)

/-- `fields.find(field => values.some(v => !isNaN(Number(v))))`. -/
def numericFieldOf (data : List Record) : Option String :=
  (fieldsOf data).find? fun f => (valuesOf data f).any fun v => (jsToNumber v).isSome

/-- `Number(x) || 0`: NaN collapses to 0 (and 0 stays 0). -/
def jsOrZero : Option ℚ → ℚ
  | some q => q
  | none => 0

/-- The trend values, `numericField ? data.slice(0, 10).map(...) :
Array.from(...)`: the ternary tests the found field name's JavaScript
truthiness, so both an absent field and a found field named the empty
string (falsy) take the ten synthetic values `Math.random() * 100`;
otherwise the chosen field's coerced values over the first 10 records.
The profiler is parametrised by the random stream `rand`. -/
def trendValues (data : List Record) (rand : ℕ → ℚ) : List ℚ :=
  match numericFieldOf data with
  | some f =>
    if f = "" then (List.range 10).map fun i => rand i * 100
    else (data.take 10).map fun row => jsOrZero (jsToNumber (getField row f))
  | none => (List.range 10).map fun i => rand i * 100

/-- `fields.find(field => uniqueValues.size < data.length * 0.5 &&
uniqueValues.size > 1)`, where the distinct count is over raw values.
`0.5` is exactly representable, so `u < n * 0.5` is embedded as the
equivalent integer comparison `2 * u < n`. -/
def categoricalFieldOf (data : List Record) : Option String :=
  (fieldsOf data).find? fun f =>
    let u := (valuesOf data f).dedup.length
    decide (2 * u < data.length) && decide (u > 1)

/-- `acc[value] = (acc[value] || 0) + 1` on a plain object, modelled as
an association list keyed by the stringified value. -/
def bumpCount (acc : List (String × ℕ)) (k : String) : List (String × ℕ) :=
  if acc.any fun p => p.1 == k then
    acc.map fun p => if p.1 == k then (p.1, p.2 + 1) else p
  else
    acc ++ [(k, 1)]

/-- `data.reduce(...)`: occurrence counts of the categorical field's
stringified values, in first-occurrence order. -/
def countsFor (data : List Record) (f : String) : List (String × ℕ) :=
  data.foldl (fun acc row => bumpCount acc (jsToString (getField row f))) []

/-- A labels/values pair as used for the trend and distribution. -/
structure Series where
  labels : List String
  values : List ℚ
deriving DecidableEq

/-- The distribution: `if (categoricalField) {...}` tests the found
field name's JavaScript truthiness, so the fixed placeholder `30/45/25`
series is kept both when no field qualifies and when the qualifying
field is named the empty string (falsy); otherwise the top 8 occurrence
counts sorted descending (`sort(([, a], [, b]) => b - a)`, a stable
sort). -/
def distributionOf (data : List Record) : Series :=
  match categoricalFieldOf data with
  | none => ⟨["Category A", "Category B", "Category C"], [30, 45, 25]⟩
  | some f =>
    if f = "" then ⟨["Category A", "Category B", "Category C"], [30, 45, 25]⟩
    else
      let sorted := (countsFor data f).mergeSort fun a b => decide (b.2 ≤ a.2)
      let top := sorted.take 8
      ⟨top.map Prod.fst, top.map fun p => (p.2 : ℚ)⟩

/-- The `AnalysisData` result shape. -/
structure AnalysisData where
  summary : Summary
  trends : Series
  distribution : Series
  correlations : List (String × String × ℚ)
deriving DecidableEq

/-- `analyzeFrontendData`: zeroed profile on an empty record list,
otherwise summary, trend and distribution as above. -/
def analyzeFrontendData (data : List Record) (rand : ℕ → ℚ) : AnalysisData :=
  if data.length = 0 then ⟨⟨0, 0, 0, []⟩, ⟨[], []⟩, ⟨[], []⟩, []⟩
  else ⟨summaryOf data, ⟨trendLabels data, trendValues data rand⟩, distributionOf data, []⟩

/-- A character matching the JavaScript regex word class `\w`,
i.e. `[A-Za-z0-9_]`. -/
def isWordChar (c : Char) : Bool := c.isAlphanum || c == '_'

/-- Models `text.split(/\W+/)` on a character list: the (possibly empty)
maximal word-character segments around each maximal run of non-word
characters, including the empty segments JavaScript produces at the two
boundaries. -/
def splitNonWord : List Char → List Char → List (List Char)
  | [], acc => [acc.reverse]
  | c :: cs, acc =>
    if isWordChar c then splitNonWord cs (c :: acc)
    else acc.reverse :: splitNonWord (cs.dropWhile fun d => !isWordChar d) []
termination_by cs _ => cs.length
decreasing_by
  · simp only [List.length_cons]; omega
  · exact Nat.lt_succ_of_le (List.dropWhile_sublist _).length_le

/-- `text.toLowerCase().split(/\W+/)`. -/
def tokenizeJs (text : String) : List String :=
  (splitNonWord text.toLower.toList []).map List.asString

/-- `vectorize`: the term-frequency vector of a text over a vocabulary,
`vocabulary.map(word => tokens.filter(t => t === word).length)`. -/
def vectorize (text : String) (vocabulary : List String) : List ℕ :=
  let tokens := tokenizeJs text
  vocabulary.map fun word => (tokens.filter fun t => t == word).length

/-- `a.reduce((sum, ai, i) => sum + ai * b[i], 0)` on equally long
vectors. -/
noncomputable def dotJs (a b : List ℝ) : ℝ :=
  (a.zip b).foldl (fun s p => s + p.1 * p.2) 0

/-- `Math.sqrt(v.reduce((sum, x) => sum + x * x, 0))`. -/
noncomputable def normJs (a : List ℝ) : ℝ :=
  Real.sqrt (a.foldl (fun s x => s + x * x) 0)

/-- `cosineSimilarity`: `normA && normB ? dot / (normA * normB) : 0` —
the guarded division, 0 whenever either norm is zero. -/
noncomputable def cosineSimilarity (a b : List ℝ) : ℝ :=
  if normJs a ≠ 0 ∧ normJs b ≠ 0 then dotJs a b / (normJs a * normJs b) else 0

/-- One scored entry `{ row, score }` produced by `vectorSearch`. -/
structure Scored where
  row : Record
  score : ℝ

/-- The scored list `vectors.map((vec, i) => ({ row: dataRows[i],
score: cosineSimilarity(queryVec, vec) }))`, in input order. -/
noncomputable def scoredOf (query : String) (dataRows : List Record)
    (vectors : List (List ℝ)) (vocabulary : List String) : List Scored :=
  let queryVec := (vectorize query vocabulary).map fun n => (n : ℝ)
  vectors.mapIdx fun i vec => ⟨dataRows.getD i [], cosineSimilarity queryVec vec⟩

/-- JavaScript `l.slice(0, n)`: for non-negative `n` the first `n`
elements, for negative `n` everything except the last `|n|` elements. -/
def jsSliceTo {α : Type} (l : List α) (n : ℤ) : List α :=
  if n < 0 then l.take (l.length - (-n).toNat) else l.take n.toNat

/-- `vectorSearch`: score every vector against the query, sort by score
descending (`sort((a, b) => b.score - a.score)`, a stable sort, modelled
by `mergeSort` which is stable), then `slice(0, topN)`. -/
noncomputable def vectorSearch (query : String) (dataRows : List Record)
    (vectors : List (List ℝ)) (vocabulary : List String) (topN : ℤ) : List Scored :=
  jsSliceTo
    ((scoredOf query dataRows vectors vocabulary).mergeSort fun a b => decide (b.score ≤ a.score))
    topN

/-- A chat message as far as the query path is concerned (ids and
timestamps are presentation noise and omitted). -/
structure Msg where
  content : String
  isUser : Bool
  sources : List String
deriving DecidableEq

/-- The parsed body of a successful `/query` response: an optional
`ai_response`, the truthiness of `vector_results`, and, when the body is
a plain array (the legacy shape), its `text` fields. -/
structure RemoteQueryData where
  ai_response : Option String
  vector_results : Bool
  arrayTexts : Option (List String)

/-- Outcome of the awaited `axios.post` call: a response body, or any
transport failure (timeout, network error, non-2xx). -/
inductive RemoteResult where
  | ok (data : RemoteQueryData)
  | error

/-- JavaScript truthiness of an optional string field. -/
def jsTruthyOptStr : Option String → Bool
  | none => false
  | some s => !(s == "")

/-- The literal error text appended to the chat on transport failure. -/
def queryErrorMessage : String :=
  "Error connecting to backend. Please try again or make sure the dataset is loaded."

/-- `s.trim()` via the character-level model. -/
def jsTrim (s : String) : String := (trimChars s.toList).asString

/-- `handleSendMessage`, with the remote call's outcome passed in
explicitly: an empty (trimmed) input is ignored; otherwise the user
message is appended, then on success either the `ai_response` or up to 3
legacy `text` results are appended, and on failure the fixed
`queryErrorMessage` is appended. -/
def handleSendMessage (inputValue : String) (prev : List Msg)
    (remote : RemoteResult) (datasetName : String) : List Msg :=
  if jsTrim inputValue == "" then prev
  else
    let withUser := prev ++ [⟨inputValue, true, []⟩]
    match remote with
    | RemoteResult.ok data =>
      if jsTruthyOptStr data.ai_response then
        withUser ++ [⟨data.ai_response.getD "", false,
          if data.vector_results then [datasetName] else []⟩]
      else
        let results := data.arrayTexts.getD []
        let sources := results.take 3
        withUser ++ [⟨if sources.length > 0 then
            "Top results:\n" ++ String.intercalate "\n\n" sources
          else "No relevant results found.", false, [datasetName]⟩]
    | RemoteResult.error => withUser ++ [⟨queryErrorMessage, false, []⟩]

/-! ### General lemmas about the embedded operations -/

/-- The summary fold accumulates, over the processed fields, one missing
count per field. -/
theorem summaryFold_missingValues (data : List Record) :
    ∀ (fs : List String) (acc : Summary),
      (fs.foldl (summaryStep data) acc).missingValues =
        acc.missingValues +
          (fs.map fun f => data.length - (nonNullValuesOf data f).length).sum := by
  intro fs
  induction fs with
  | nil => intro acc; simp
  | cons f fs ih =>
    intro acc
    have hstep : (summaryStep data acc f).missingValues =
        acc.missingValues + (data.length - (nonNullValuesOf data f).length) := by
      unfold summaryStep
      by_cases h : 5 * (numberValuesOf data f).length > 4 * (nonNullValuesOf data f).length <;>
        simp [h, valuesOf]
    rw [List.foldl_cons, ih, hstep, List.map_cons, List.sum_cons]
    omega

/-- The summary fold appends exactly one `dataTypes` entry per field
passing the strict 80% test, carrying the parsed-number count. -/
theorem summaryFold_dataTypes (data : List Record) :
    ∀ (fs : List String) (acc : Summary),
      (fs.foldl (summaryStep data) acc).dataTypes =
        acc.dataTypes ++ fs.filterMap fun f =>
          if 5 * (numberValuesOf data f).length > 4 * (nonNullValuesOf data f).length
          then some (f, (numberValuesOf data f).length) else none := by
  intro fs
  induction fs with
  | nil => intro acc; simp
  | cons f fs ih =>
    intro acc
    have hstep : (summaryStep data acc f).dataTypes =
        acc.dataTypes ++
          (if 5 * (numberValuesOf data f).length > 4 * (nonNullValuesOf data f).length
           then [(f, (numberValuesOf data f).length)] else []) := by
      unfold summaryStep
      by_cases h : 5 * (numberValuesOf data f).length > 4 * (nonNullValuesOf data f).length <;>
        simp [h]
    rw [List.foldl_cons, ih, hstep, List.filterMap_cons]
    by_cases h : 5 * (numberValuesOf data f).length > 4 * (nonNullValuesOf data f).length <;>
      simp [h]

/-- Association-list lookup over a conditional `filterMap` of a
duplicate-free key list. -/
theorem lookup_filterMap_ite (val : String → ℕ) (cond : String → Prop)
    [DecidablePred cond] :
    ∀ (fs : List String) (f : String), fs.Nodup → f ∈ fs →
      (fs.filterMap fun x => if cond x then some (x, val x) else none).lookup f =
        if cond f then some (val f) else none := by
  have hnone : ∀ (fs : List String) (f : String), f ∉ fs →
      (fs.filterMap fun x => if cond x then some (x, val x) else none).lookup f = none := by
    intro fs
    induction fs with
    | nil => intro f _; simp
    | cons a fs ih =>
      intro f hf
      rw [List.filterMap_cons]
      by_cases h : cond a
      · rw [if_pos h]
        have hne : (f == a) = false := by
          simp only [beq_eq_false_iff_ne]
          intro heq; exact hf (heq ▸ List.mem_cons_self a fs)
        rw [List.lookup_cons, hne]
        exact ih f fun hmem => hf (List.mem_cons_of_mem a hmem)
      · rw [if_neg h]
        exact ih f fun hmem => hf (List.mem_cons_of_mem a hmem)
  intro fs
  induction fs with
  | nil => intro f _ hf; simp at hf
  | cons a fs ih =>
    intro f hnd hf
    rw [List.filterMap_cons]
    by_cases hfa : f = a
    · subst hfa
      by_cases h : cond f
      · rw [if_pos h, List.lookup_cons]
        simp [h]
      · rw [if_neg h, if_neg h]
        exact hnone fs f (List.nodup_cons.mp hnd).1
    · have hmem : f ∈ fs := by
        rcases List.mem_cons.mp hf with h | h
        · exact absurd h hfa
        · exact h
      by_cases h : cond a
      · rw [if_pos h, List.lookup_cons]
        have hne : (f == a) = false := by simpa using hfa
        rw [hne]
        exact ih f (List.nodup_cons.mp hnd).2 hmem
      · rw [if_neg h]
        exact ih f (List.nodup_cons.mp hnd).2 hmem

/-- `mapIdx` with an element-independent function is a map over the
index range. -/
theorem mapIdx_const_eq_range_map {α β : Type} (g : ℕ → β) :
    ∀ l : List α, (l.mapIdx fun i _ => g i) = (List.range l.length).map g := by
  intro l
  induction l generalizing g with
  | nil => simp
  | cons a l ih =>
    rw [List.mapIdx_cons, List.length_cons, List.range_succ_eq_map, List.map_cons,
      List.map_map]
    exact congrArg _ (ih fun i => g (i + 1))

/-- `scoredOf` scores one entry per document vector. -/
theorem length_scoredOf (query : String) (dataRows : List Record)
    (vectors : List (List ℝ)) (vocabulary : List String) :
    (scoredOf query dataRows vectors vocabulary).length = vectors.length := by
  unfold scoredOf
  simp

/-- Filtering a prefix of a list yields a prefix of the filtered list. -/
theorem filter_take_prefix {α : Type} (p : α → Bool) (n : ℕ) (l : List α) :
    (l.take n).filter p <+: l.filter p := by
  conv_rhs => rw [← List.take_append_drop n l]
  rw [List.filter_append]
  exact List.prefix_append _ _

/-- Stability of `mergeSort` in filter form: the subsequence of elements
drawn from a set on which `le` always holds (e.g. the elements sharing
one sort key) is exactly the corresponding subsequence of the input. -/
theorem mergeSort_filter_of_le {α : Type} (le : α → α → Bool) (p : α → Bool)
    (htrans : ∀ a b c, le a b → le b c → le a c)
    (htotal : ∀ a b, le a b || le b a)
    (hp : ∀ a b, p a → p b → le a b) (l : List α) :
    (l.mergeSort le).filter p = l.filter p := by
  have hpair : (l.filter p).Pairwise fun a b => le a b := by
    refine List.pairwise_of_forall_mem_list ?_
    intro a ha b hb
    exact hp a b (List.of_mem_filter ha) (List.of_mem_filter hb)
  have hsub : List.Sublist (l.filter p) (l.mergeSort le) :=
    List.sublist_mergeSort htrans htotal hpair (List.filter_sublist l)
  have hsub2 : List.Sublist (l.filter p) ((l.mergeSort le).filter p) := by
    have hmono := hsub.filter p
    have heq : (l.filter p).filter p = l.filter p :=
      List.filter_eq_self.mpr fun a ha => List.of_mem_filter ha
    rwa [heq] at hmono
  have hperm : List.Perm ((l.mergeSort le).filter p) (l.filter p) :=
    (List.mergeSort_perm l le).filter p
  exact (hsub2.eq_of_length hperm.length_eq.symm).symm

/-- The score comparison used by `vectorSearch` sorts every scored
list into descending score order. -/
theorem sorted_mergeSort_scoreLE (l : List Scored) :
    (l.mergeSort fun a b => decide (b.score ≤ a.score)).Pairwise
      fun a b => decide (b.score ≤ a.score) = true := by
  apply List.sorted_mergeSort
  · intro a b c hab hbc
    simp only [decide_eq_true_eq] at hab hbc ⊢
    exact le_trans hbc hab
  · intro a b
    rcases le_total b.score a.score with h | h <;> simp [h]

/-- One `bumpCount` step preserves the counting invariant: keys stay
duplicate-free and each entry records its key's occurrence count in the
processed key stream `p`. -/
theorem bumpCount_inv (acc : List (String × ℕ)) (p : List String) (k : String)
    (hnd : (acc.map Prod.fst).Nodup)
    (hmem : ∀ k' n, (k', n) ∈ acc ↔ k' ∈ p ∧ n = p.count k') :
    ((bumpCount acc k).map Prod.fst).Nodup ∧
    ∀ k' n, (k', n) ∈ bumpCount acc k ↔ k' ∈ p ++ [k] ∧ n = (p ++ [k]).count k' := by
  have hcount_ne : ∀ k', k' ≠ k → (p ++ [k]).count k' = p.count k' := by
    intro k' hne
    rw [List.count_append, List.count_singleton]
    simp [hne.symm]
  have hcount_eq : (p ++ [k]).count k = p.count k + 1 := by
    rw [List.count_append, List.count_singleton_self]
  unfold bumpCount
  by_cases hany : (acc.any fun q => q.1 == k) = true
  · rw [if_pos hany]
    have hkp : k ∈ p := by
      rcases List.any_eq_true.mp hany with ⟨q, hq, hqk⟩
      have hq1 : q.1 = k := by simpa using hqk
      have hqacc : (q.1, q.2) ∈ acc := by simpa using hq
      exact hq1 ▸ ((hmem q.1 q.2).mp hqacc).1
    have hkeys : ((acc.map fun q => if q.1 == k then (q.1, q.2 + 1) else q).map Prod.fst)
        = acc.map Prod.fst := by
      rw [List.map_map]
      refine List.map_congr_left ?_
      intro q _
      by_cases hqk : q.1 = k <;> simp [hqk]
    refine ⟨hkeys ▸ hnd, ?_⟩
    intro k' n
    constructor
    · intro hmem'
      rcases List.mem_map.mp hmem' with ⟨q, hq, hgq⟩
      have hqacc : (q.1, q.2) ∈ acc := by simpa using hq
      have hq' := (hmem q.1 q.2).mp hqacc
      by_cases hqk : q.1 = k
      · rw [if_pos (by simpa using hqk)] at hgq
        have h1 : q.1 = k' := congrArg Prod.fst hgq
        have h2 : q.2 + 1 = n := congrArg Prod.snd hgq
        have hkk' : k' = k := h1 ▸ hqk
        subst hkk'
        refine ⟨List.mem_append.mpr (Or.inr (by simp)), ?_⟩
        rw [hcount_eq, ← h2]
        have hq2 : q.2 = p.count k' := by
          have := hq'.2
          rwa [hqk] at this
        omega
      · rw [if_neg (by simpa using hqk)] at hgq
        have h1 : q.1 = k' := congrArg Prod.fst hgq
        have h2 : q.2 = n := congrArg Prod.snd hgq
        have hk'ne : k' ≠ k := h1 ▸ hqk
        refine ⟨List.mem_append.mpr (Or.inl (h1 ▸ hq'.1)), ?_⟩
        rw [hcount_ne _ hk'ne, ← h2, hq'.2, h1]
    · rintro ⟨hmem', hn⟩
      by_cases hk' : k' = k
      · subst hk'
        have hqacc : (k', p.count k') ∈ acc := (hmem k' (p.count k')).mpr ⟨hkp, rfl⟩
        refine List.mem_map.mpr ⟨(k', p.count k'), hqacc, ?_⟩
        rw [if_pos (by simp)]
        rw [hn, hcount_eq]
      · have hp' : k' ∈ p := by
          rcases List.mem_append.mp hmem' with h | h
          · exact h
          · simp at h
            exact absurd h hk'
        have hqacc : (k', p.count k') ∈ acc := (hmem k' (p.count k')).mpr ⟨hp', rfl⟩
        refine List.mem_map.mpr ⟨(k', p.count k'), hqacc, ?_⟩
        rw [if_neg (by simpa using hk')]
        rw [hn, hcount_ne _ hk']
  · rw [if_neg hany]
    have hknotin : ∀ q ∈ acc, q.1 ≠ k := by
      intro q hq hqk
      exact hany (List.any_eq_true.mpr ⟨q, hq, by simpa using hqk⟩)
    have hkp : k ∉ p := by
      intro hkp
      exact hknotin _ ((hmem k (p.count k)).mpr ⟨hkp, rfl⟩) rfl
    constructor
    · rw [List.map_append, List.nodup_append]
      refine ⟨hnd, by simp, ?_⟩
      intro a ha hb
      simp only [List.map_cons, List.map_nil, List.mem_cons, List.not_mem_nil,
        or_false] at hb
      rcases List.mem_map.mp ha with ⟨q, hq, rfl⟩
      exact hknotin q hq hb
    · intro k' n
      rw [List.mem_append]
      constructor
      · rintro (h | h)
        · have h' := (hmem k' n).mp h
          have hne : k' ≠ k := by
            intro he
            subst he
            exact hkp h'.1
          exact ⟨List.mem_append.mpr (Or.inl h'.1), by rw [hcount_ne _ hne]; exact h'.2⟩
        · simp only [List.mem_cons, List.not_mem_nil, or_false, Prod.mk.injEq] at h
          obtain ⟨rfl, rfl⟩ := h
          refine ⟨List.mem_append.mpr (Or.inr (by simp)), ?_⟩
          rw [hcount_eq, List.count_eq_zero.mpr hkp]
      · rintro ⟨hmem', hn⟩
        by_cases hk' : k' = k
        · subst hk'
          right
          have hn1 : n = 1 := by
            rw [hn, hcount_eq, List.count_eq_zero.mpr hkp]
          rw [hn1]
          simp
        · left
          have hp' : k' ∈ p := by
            rcases List.mem_append.mp hmem' with h | h
            · exact h
            · simp at h
              exact absurd h hk'
          refine (hmem k' n).mpr ⟨hp', ?_⟩
          rw [hn, hcount_ne _ hk']

/-- The counting invariant holds after folding any key stream. -/
theorem countsFold_inv :
    ∀ (ks : List String) (acc : List (String × ℕ)) (p : List String),
      (acc.map Prod.fst).Nodup →
      (∀ k' n, (k', n) ∈ acc ↔ k' ∈ p ∧ n = p.count k') →
      ((ks.foldl bumpCount acc).map Prod.fst).Nodup ∧
        ∀ k' n, (k', n) ∈ ks.foldl bumpCount acc ↔
          k' ∈ p ++ ks ∧ n = (p ++ ks).count k' := by
  intro ks
  induction ks with
  | nil =>
    intro acc p hnd hmem
    simpa using ⟨hnd, hmem⟩
  | cons k ks ih =>
    intro acc p hnd hmem
    obtain ⟨hnd', hmem'⟩ := bumpCount_inv acc p k hnd hmem
    obtain ⟨h1, h2⟩ := ih (bumpCount acc k) (p ++ [k]) hnd' hmem'
    rw [List.append_assoc, List.singleton_append] at h2
    exact ⟨h1, h2⟩

/-- `countsFor` has duplicate-free keys and each entry records the
occurrence count of its key among the field's stringified values. -/
theorem countsFor_inv (data : List Record) (f : String) :
    ((countsFor data f).map Prod.fst).Nodup ∧
    ∀ k n, (k, n) ∈ countsFor data f ↔
      k ∈ (valuesOf data f).map jsToString ∧
        n = ((valuesOf data f).map jsToString).count k := by
  have hrw : countsFor data f =
      ((valuesOf data f).map jsToString).foldl bumpCount [] := by
    unfold countsFor valuesOf
    rw [List.map_map, List.foldl_map]
    rfl
  rw [hrw]
  have hbase : ∀ k' n, (k', n) ∈ ([] : List (String × ℕ)) ↔
      k' ∈ ([] : List String) ∧ n = ([] : List String).count k' := by
    intro k' n
    simp
  have := countsFold_inv ((valuesOf data f).map jsToString) [] [] (by simp) hbase
  simpa using this

/-- `countsFor` has at most as many entries as the field has distinct
stringified values. -/
theorem countsFor_length_le (data : List Record) (f : String) :
    (countsFor data f).length ≤ ((valuesOf data f).map jsToString).dedup.length := by
  obtain ⟨hnd, hmem⟩ := countsFor_inv data f
  have hsubset : (countsFor data f).map Prod.fst ⊆
      ((valuesOf data f).map jsToString).dedup := by
    intro a ha
    rcases List.mem_map.mp ha with ⟨q, hq, rfl⟩
    have hq' := (hmem q.1 q.2).mp (by simpa using hq)
    exact List.mem_dedup.mpr hq'.1
  have hsub := hnd.subperm hsubset
  have hle := hsub.length_le
  rwa [List.length_map] at hle

/-! ### Claim theorems -/

/-- Claim C1 counterexample. First record list: field "a" has 5
non-missing values of which exactly 4 (80%) parse as numbers, so the
claim's ≥80% rule classifies it numeric with `dataTypes` entry 5, yet
the code's strict comparison leaves it without an entry. Second record
list: field "b" has 10 non-missing values of which 9 parse, and its
entry is the parsed count 9, not the non-missing count 10 the claim
specifies. -/
theorem dataTypes_numeric_rule_cex :
    ((analyzeFrontendData
        [[("a", Value.str "1")], [("a", Value.str "2")], [("a", Value.str "3")],
         [("a", Value.str "4")], [("a", Value.str "x")]] fun _ => 0).summary.dataTypes.lookup "a"
        = none ∧
      5 * (numberValuesOf
        [[("a", Value.str "1")], [("a", Value.str "2")], [("a", Value.str "3")],
         [("a", Value.str "4")], [("a", Value.str "x")]] "a").length
        = 4 * (nonNullValuesOf
        [[("a", Value.str "1")], [("a", Value.str "2")], [("a", Value.str "3")],
         [("a", Value.str "4")], [("a", Value.str "x")]] "a").length) ∧
    ((analyzeFrontendData
        [[("b", Value.str "1")], [("b", Value.str "2")], [("b", Value.str "3")],
         [("b", Value.str "4")], [("b", Value.str "5")], [("b", Value.str "6")],
         [("b", Value.str "7")], [("b", Value.str "8")], [("b", Value.str "9")],
         [("b", Value.str "x")]] fun _ => 0).summary.dataTypes.lookup "b" = some 9 ∧
      (nonNullValuesOf
        [[("b", Value.str "1")], [("b", Value.str "2")], [("b", Value.str "3")],
         [("b", Value.str "4")], [("b", Value.str "5")], [("b", Value.str "6")],
         [("b", Value.str "7")], [("b", Value.str "8")], [("b", Value.str "9")],
         [("b", Value.str "x")]] "b").length = 10) := by
  decide

/-- Claim C1 (amended): a field of the first record gets a `dataTypes`
entry exactly when strictly more than 80% of its non-missing values
parse as numbers, and the entry is the count of values that parse as
numbers (not the non-missing count). -/
theorem dataTypes_strict_numeric_rule (data : List Record) (rand : ℕ → ℚ) (f : String)
    (hnd : (fieldsOf data).Nodup) (hf : f ∈ fieldsOf data) :
    (analyzeFrontendData data rand).summary.dataTypes.lookup f =
      if 5 * (numberValuesOf data f).length > 4 * (nonNullValuesOf data f).length
      then some (numberValuesOf data f).length else none := by
  have hne : data.length ≠ 0 := by
    intro h
    rw [List.length_eq_zero.mp h] at hf
    simp [fieldsOf] at hf
  unfold analyzeFrontendData
  rw [if_neg hne]
  show (summaryOf data).dataTypes.lookup f = _
  unfold summaryOf
  rw [summaryFold_dataTypes]
  simp only [List.nil_append]
  exact lookup_filterMap_ite (fun x => (numberValuesOf data x).length)
    (fun x => 5 * (numberValuesOf data x).length > 4 * (nonNullValuesOf data x).length)
    (fieldsOf data) f hnd hf

/-- Witness for the amended C1 on a one-field record list whose single
value parses as a number. -/
theorem dataTypes_strict_numeric_rule_witness :
    (analyzeFrontendData [[("a", Value.str "1")]] fun _ => 0).summary.dataTypes.lookup "a" =
      if 5 * (numberValuesOf [[("a", Value.str "1")]] "a").length >
          4 * (nonNullValuesOf [[("a", Value.str "1")]] "a").length
      then some (numberValuesOf [[("a", Value.str "1")]] "a").length else none :=
  dataTypes_strict_numeric_rule [[("a", Value.str "1")]] (fun _ => 0) "a"
    (by decide) (by decide)

/-- Claim C8: for equal-length vectors, if either vector's norm is zero
then `cosineSimilarity` returns exactly 0 — the guarded division is
never taken with a zero divisor. -/
theorem cosineSimilarity_zero_norm (a b : List ℝ) (hlen : a.length = b.length)
    (h : normJs a = 0 ∨ normJs b = 0) : cosineSimilarity a b = 0 := by
  unfold cosineSimilarity
  rcases h with h | h <;> simp [h]

/-- Witness for C8 at the concrete vectors `[0]` and `[1]`. -/
theorem cosineSimilarity_zero_norm_witness : cosineSimilarity [0] [1] = 0 :=
  cosineSimilarity_zero_norm [0] [1] rfl (Or.inl (by simp [normJs]))

/-- Claim C7: `missingValues` equals the sum, over the fields of the
first record, of the record count minus that field's non-missing
count. -/
theorem missingValues_eq_sum (data : List Record) (rand : ℕ → ℚ) :
    (analyzeFrontendData data rand).summary.missingValues =
      ((fieldsOf data).map fun f => data.length - (nonNullValuesOf data f).length).sum := by
  unfold analyzeFrontendData
  by_cases h : data.length = 0
  · have hnil : data = [] := List.length_eq_zero.mp h
    subst hnil
    simp [fieldsOf]
  · rw [if_neg h]
    show (summaryOf data).missingValues = _
    unfold summaryOf
    rw [summaryFold_missingValues]
    simp

/-- Claim C2 counterexample: on a transport failure the chat path does
append a message whose content is the fixed backend-error text, so the
remote failure is surfaced to the user rather than recovered by the
local ranker. -/
theorem handleSendMessage_error_cex :
    ¬ (∀ (input : String) (prev : List Msg) (name : String),
        jsTrim input ≠ "" →
        ∀ m ∈ handleSendMessage input prev RemoteResult.error name,
          m.content ≠ queryErrorMessage) := by
  intro h
  exact h "show trends" [] "gdelt" (by decide)
    ⟨queryErrorMessage, false, []⟩ (by decide) rfl

/-- Claim C2 (amended): on any transport failure of the remote query
call, `handleSendMessage` appends the user message followed by the fixed
`queryErrorMessage` chat message; the local similarity ranker is not
invoked and no ranked result list is produced. -/
theorem handleSendMessage_error_appends_error (input : String) (prev : List Msg)
    (name : String) (h : jsTrim input ≠ "") :
    handleSendMessage input prev RemoteResult.error name =
      prev ++ [⟨input, true, []⟩, ⟨queryErrorMessage, false, []⟩] := by
  unfold handleSendMessage
  simp [h]

/-- Witness for the amended C2 at a concrete non-empty input. -/
theorem handleSendMessage_error_appends_error_witness :
    handleSendMessage "show trends" [] RemoteResult.error "gdelt" =
      [⟨"show trends", true, []⟩, ⟨queryErrorMessage, false, []⟩] :=
  handleSendMessage_error_appends_error "show trends" [] "gdelt" (by decide)

/-- Claim C6 counterexample: a single-record list with no
numeric-parsing value satisfies the claim's hypotheses, yet the trend
has 1 label, not 10 (labels come from `data.slice(0, 10)`), while the
synthetic value series still has 10 entries. -/
theorem trend_fallback_cex :
    (∀ f ∈ fieldsOf [[("a", Value.str "x")]],
      ∀ v ∈ valuesOf [[("a", Value.str "x")]] f, jsToNumber v = none) ∧
    (analyzeFrontendData [[("a", Value.str "x")]] fun _ => 0).trends.labels.length = 1 ∧
    (analyzeFrontendData [[("a", Value.str "x")]] fun _ => 0).trends.labels.length ≠ 10 := by
  refine ⟨by decide, by decide, by decide⟩

/-- Claim C6 (amended): for a non-empty record list in which no field
has any value parsing as a number, the trend labels are "Data Point 1"
through "Data Point min(10, record count)", and the synthetic value
series has exactly 10 entries, each in [0,100) under the Math.random
contract on the random stream. -/
theorem trend_fallback_spec (data : List Record) (rand : ℕ → ℚ)
    (hne : data ≠ [])
    (hnum : ∀ f ∈ fieldsOf data, ∀ v ∈ valuesOf data f, jsToNumber v = none)
    (hrand : ∀ i, 0 ≤ rand i ∧ rand i < 1) :
    (analyzeFrontendData data rand).trends.labels =
      (List.range (min 10 data.length)).map (fun i => "Data Point " ++ toString (i + 1)) ∧
    (analyzeFrontendData data rand).trends.values.length = 10 ∧
    ∀ v ∈ (analyzeFrontendData data rand).trends.values, 0 ≤ v ∧ v < 100 := by
  have hlen : data.length ≠ 0 := fun h => hne (List.length_eq_zero.mp h)
  have hfind : numericFieldOf data = none := by
    unfold numericFieldOf
    rw [List.find?_eq_none]
    intro f hf hany
    rcases List.any_eq_true.mp hany with ⟨v, hv, hsome⟩
    rw [hnum f hf v hv] at hsome
    simp at hsome
  unfold analyzeFrontendData
  rw [if_neg hlen]
  refine ⟨?_, ?_, ?_⟩
  · show trendLabels data = _
    unfold trendLabels
    rw [mapIdx_const_eq_range_map, List.length_take]
  · show (trendValues data rand).length = 10
    unfold trendValues
    rw [hfind]
    simp
  · show ∀ v ∈ trendValues data rand, 0 ≤ v ∧ v < 100
    unfold trendValues
    rw [hfind]
    intro v hv
    rcases List.mem_map.mp hv with ⟨i, _, rfl⟩
    rcases hrand i with ⟨h0, h1⟩
    constructor
    · exact mul_nonneg h0 (by norm_num)
    · calc rand i * 100 < 1 * 100 := by
            exact mul_lt_mul_of_pos_right h1 (by norm_num)
        _ = 100 := one_mul 100

/-- Witness for the amended C6 at the one-record list above with the
constant-zero random stream. -/
theorem trend_fallback_spec_witness :
    (analyzeFrontendData [[("a", Value.str "x")]] fun _ => 0).trends.labels =
      (List.range (min 10 [[("a", Value.str "x")]].length)).map
        (fun i => "Data Point " ++ toString (i + 1)) ∧
    (analyzeFrontendData [[("a", Value.str "x")]] fun _ => 0).trends.values.length = 10 ∧
    ∀ v ∈ (analyzeFrontendData [[("a", Value.str "x")]] fun _ => 0).trends.values,
      0 ≤ v ∧ v < 100 :=
  trend_fallback_spec [[("a", Value.str "x")]] (fun _ => 0) (by decide) (by decide)
    fun _ => ⟨le_rfl, zero_lt_one⟩

/-- Claim C3 counterexample: a record list in which no field qualifies
as categorical takes the fallback path, whose fixed value series
`[30, 45, 25]` is not sorted by count descending. -/
theorem distribution_sorted_cex :
    (analyzeFrontendData [[("a", Value.str "x")], [("a", Value.str "y")]]
        fun _ => 0).distribution.values = [30, 45, 25] ∧
    ¬ List.Pairwise (· ≥ ·)
        (analyzeFrontendData [[("a", Value.str "x")], [("a", Value.str "y")]]
          fun _ => 0).distribution.values := by
  have hv : (analyzeFrontendData [[("a", Value.str "x")], [("a", Value.str "y")]]
      fun _ => 0).distribution.values = [30, 45, 25] := rfl
  refine ⟨hv, ?_⟩
  rw [hv]
  intro h
  have h3045 : (30 : ℚ) ≥ 45 := (List.pairwise_cons.mp h).1 45 (by simp)
  norm_num at h3045

/-- Claim C3 (amended): the distribution always has at most 8 label and
value entries; on the computed path (a field qualifies and its name is
non-empty, hence truthy) the values are sorted by count descending;
when no field qualifies, or the qualifying field is named the empty
string (falsy), a non-empty record list gets the fixed placeholder
series Category A/B/C with values 30/45/25 — which is not sorted
descending. -/
theorem distribution_spec (data : List Record) (rand : ℕ → ℚ) :
    (analyzeFrontendData data rand).distribution.labels.length ≤ 8 ∧
    (analyzeFrontendData data rand).distribution.values.length ≤ 8 ∧
    (∀ f, categoricalFieldOf data = some f → f ≠ "" →
      List.Pairwise (· ≥ ·) (analyzeFrontendData data rand).distribution.values) ∧
    (data ≠ [] →
      (categoricalFieldOf data = none ∨ categoricalFieldOf data = some "") →
      (analyzeFrontendData data rand).distribution =
        ⟨["Category A", "Category B", "Category C"], [30, 45, 25]⟩) := by
  by_cases hlen : data.length = 0
  · have hnil : data = [] := List.length_eq_zero.mp hlen
    subst hnil
    refine ⟨by simp [analyzeFrontendData], by simp [analyzeFrontendData], ?_, ?_⟩
    · intro f hf _
      simp [categoricalFieldOf, fieldsOf] at hf
    · intro hne _
      exact absurd rfl hne
  · have hshape : (analyzeFrontendData data rand).distribution = distributionOf data := by
      unfold analyzeFrontendData
      rw [if_neg hlen]
    rw [hshape]
    cases hcat : categoricalFieldOf data with
    | none =>
      have hd : distributionOf data =
          ⟨["Category A", "Category B", "Category C"], [30, 45, 25]⟩ := by
        unfold distributionOf
        rw [hcat]
      refine ⟨by rw [hd]; decide, ?_, ?_, fun _ _ => hd⟩
      · rw [hd]
        show (3 : ℕ) ≤ 8
        decide
      · intro f hf _
        exact Option.noConfusion hf
    | some f =>
      by_cases hf0 : f = ""
      · subst hf0
        have hd : distributionOf data =
            ⟨["Category A", "Category B", "Category C"], [30, 45, 25]⟩ := by
          unfold distributionOf
          rw [hcat]
          exact if_pos rfl
        refine ⟨by rw [hd]; decide, ?_, ?_, fun _ _ => hd⟩
        · rw [hd]
          show (3 : ℕ) ≤ 8
          decide
        · intro f' hf' hne
          exact absurd (Option.some.inj hf').symm hne
      · have hd : distributionOf data =
            ⟨(((countsFor data f).mergeSort fun a b => decide (b.2 ≤ a.2)).take 8).map Prod.fst,
             (((countsFor data f).mergeSort fun a b => decide (b.2 ≤ a.2)).take 8).map
               fun p => (p.2 : ℚ)⟩ := by
          unfold distributionOf
          rw [hcat]
          exact if_neg hf0
        have hsorted : List.Pairwise
            (fun (a b : String × ℕ) => decide (b.2 ≤ a.2) = true)
            ((countsFor data f).mergeSort fun a b => decide (b.2 ≤ a.2)) := by
          apply List.sorted_mergeSort
          · intro a b c hab hbc
            simp only [decide_eq_true_eq] at hab hbc ⊢
            exact Nat.le_trans hbc hab
          · intro a b
            rcases Nat.le_total b.2 a.2 with h | h <;> simp [h]
        refine ⟨?_, ?_, ?_, ?_⟩
        · rw [hd]
          simp only [List.length_map, List.length_take]
          omega
        · rw [hd]
          simp only [List.length_map, List.length_take]
          omega
        · intro f' _ _
          rw [hd]
          show List.Pairwise (· ≥ ·)
            ((((countsFor data f).mergeSort fun a b => decide (b.2 ≤ a.2)).take 8).map
              fun p => (p.2 : ℚ))
          rw [List.pairwise_map]
          refine List.Pairwise.sublist (List.take_sublist 8 _) ?_
          refine hsorted.imp ?_
          intro a b hab
          simp only [decide_eq_true_eq] at hab
          exact_mod_cast hab
        · intro _ hor
          rcases hor with hnone | hsome
          · exact Option.noConfusion hnone
          · exact absurd (Option.some.inj hsome) hf0

/-- Witness for the amended C3 on a record list with a qualifying
categorical field (3 of 5 values "x", 2 "y"). -/
theorem distribution_spec_witness :
    List.Pairwise (· ≥ ·)
      (analyzeFrontendData
        [[("c", Value.str "x")], [("c", Value.str "x")], [("c", Value.str "x")],
         [("c", Value.str "y")], [("c", Value.str "y")]] fun _ => 0).distribution.values :=
  (distribution_spec
    [[("c", Value.str "x")], [("c", Value.str "x")], [("c", Value.str "x")],
     [("c", Value.str "y")], [("c", Value.str "y")]] fun _ => 0).2.2.1 "c" (by decide)
    (by decide)

/-- Claim C4 counterexample: with two document vectors and
`topN = -1`, `vectorSearch` returns one ranked entry, not the empty
result the claim requires for every non-positive `topN` —
`slice(0, -1)` drops only the last element. -/
theorem vectorSearch_nonpositive_topN_cex :
    (vectorSearch "a" [] [[1], [1]] ["a"] (-1)).length = 1 ∧
    vectorSearch "a" [] [[1], [1]] ["a"] (-1) ≠ [] := by
  have hlen : (vectorSearch "a" [] [[1], [1]] ["a"] (-1)).length = 1 := by
    unfold vectorSearch jsSliceTo
    rw [if_pos (by decide : (-1 : ℤ) < 0)]
    rw [List.length_take, List.length_mergeSort, length_scoredOf]
    decide
  refine ⟨hlen, ?_⟩
  intro hnil
  rw [hnil] at hlen
  simp at hlen

/-- Claim C4 (amended): a non-positive `topN` never raises; `topN = 0`
yields the empty result, while a negative `topN` yields the ranked list
with its last `|topN|` entries dropped (so the result is empty only when
`|topN|` is at least the number of vectors). -/
theorem vectorSearch_nonpositive_topN (query : String) (dataRows : List Record)
    (vectors : List (List ℝ)) (vocabulary : List String) (topN : ℤ) (h : topN ≤ 0) :
    (vectorSearch query dataRows vectors vocabulary topN).length =
      if topN = 0 then 0 else vectors.length - (-topN).toNat := by
  unfold vectorSearch jsSliceTo
  by_cases h0 : topN = 0
  · subst h0
    rw [if_neg (by omega : ¬ (0 : ℤ) < 0), if_pos rfl]
    simp
  · rw [if_pos (by omega : topN < 0), if_neg h0]
    rw [List.length_take, List.length_mergeSort, length_scoredOf]
    omega

/-- Witness for the amended C4 at `topN = -2` with three vectors. -/
theorem vectorSearch_nonpositive_topN_witness :
    (vectorSearch "a" [] [[1], [1], [1]] ["a"] (-2)).length =
      if (-2 : ℤ) = 0 then 0 else [[(1 : ℝ)], [1], [1]].length - (-(-2 : ℤ)).toNat :=
  vectorSearch_nonpositive_topN "a" [] [[1], [1], [1]] ["a"] (-2) (by decide)

/-- Claim C5: for positive `topN` the ranking has length
`min(topN, len(vectors))`, is sorted by score descending, and is stable:
for every score value, the entries carrying that score form a prefix of
the same-scored entries of the unsorted scored list, i.e. equal scores
appear in original input index order. -/
theorem vectorSearch_rank_spec (query : String) (dataRows : List Record)
    (vectors : List (List ℝ)) (vocabulary : List String) (topN : ℤ) (h : 0 < topN) :
    (vectorSearch query dataRows vectors vocabulary topN).length =
      min topN.toNat vectors.length ∧
    List.Pairwise (fun a b => b.score ≤ a.score)
      (vectorSearch query dataRows vectors vocabulary topN) ∧
    ∀ c : ℝ,
      (vectorSearch query dataRows vectors vocabulary topN).filter
          (fun s => decide (s.score = c)) <+:
        (scoredOf query dataRows vectors vocabulary).filter
          fun s => decide (s.score = c) := by
  have htake : vectorSearch query dataRows vectors vocabulary topN =
      ((scoredOf query dataRows vectors vocabulary).mergeSort
        fun a b => decide (b.score ≤ a.score)).take topN.toNat := by
    unfold vectorSearch jsSliceTo
    rw [if_neg (by omega : ¬ topN < 0)]
  refine ⟨?_, ?_, ?_⟩
  · rw [htake, List.length_take, List.length_mergeSort, length_scoredOf]
  · rw [htake]
    refine List.Pairwise.sublist (List.take_sublist _ _)
      ((sorted_mergeSort_scoreLE _).imp ?_)
    intro a b hab
    simpa using hab
  · intro c
    rw [htake]
    have heq := mergeSort_filter_of_le (fun a b : Scored => decide (b.score ≤ a.score))
      (fun s => decide (s.score = c))
      (fun a b c' hab hbc => by
        simp only [decide_eq_true_eq] at hab hbc ⊢
        exact le_trans hbc hab)
      (fun a b => by rcases le_total b.score a.score with hh | hh <;> simp [hh])
      (fun a b ha hb => by
        simp only [decide_eq_true_eq] at ha hb ⊢
        rw [ha, hb])
      (scoredOf query dataRows vectors vocabulary)
    have hpre := filter_take_prefix (fun s : Scored => decide (s.score = c)) topN.toNat
      ((scoredOf query dataRows vectors vocabulary).mergeSort
        fun a b => decide (b.score ≤ a.score))
    rwa [heq] at hpre

/-- Witness for C5 at a one-vector, `topN = 1` instance. -/
theorem vectorSearch_rank_spec_witness :
    (vectorSearch "dog" [] [[1]] ["dog"] 1).length =
      min (1 : ℤ).toNat [[(1 : ℝ)]].length ∧
    List.Pairwise (fun a b => b.score ≤ a.score)
      (vectorSearch "dog" [] [[1]] ["dog"] 1) ∧
    ∀ c : ℝ,
      (vectorSearch "dog" [] [[1]] ["dog"] 1).filter
          (fun s => decide (s.score = c)) <+:
        (scoredOf "dog" [] [[1]] ["dog"]).filter fun s => decide (s.score = c) :=
  vectorSearch_rank_spec "dog" [] [[1]] ["dog"] 1 (by decide)

/-- Claim C10 counterexample: with the qualifying field named the empty
string (reachable, e.g. from a trailing-comma CSV header), the
eligibility test does select it over the raw values, but the falsy
field name keeps the placeholder distribution, so the missing value's
stringified label "null" does not appear in it. -/
theorem distribution_missing_label_cex :
    categoricalFieldOf
      [[("", Value.null)], [("", Value.null)], [("", Value.null)],
       [("", Value.str "x")], [("", Value.str "x")], [("", Value.str "x")],
       [("", Value.str "x")], [("", Value.str "x")]] = some "" ∧
    Value.null ∈ valuesOf
      [[("", Value.null)], [("", Value.null)], [("", Value.null)],
       [("", Value.str "x")], [("", Value.str "x")], [("", Value.str "x")],
       [("", Value.str "x")], [("", Value.str "x")]] "" ∧
    isNonMissing Value.null = false ∧
    "null" ∉ (analyzeFrontendData
      [[("", Value.null)], [("", Value.null)], [("", Value.null)],
       [("", Value.str "x")], [("", Value.str "x")], [("", Value.str "x")],
       [("", Value.str "x")], [("", Value.str "x")]]
      fun _ => 0).distribution.labels := by
  refine ⟨by decide, by decide, by decide, by decide⟩

/-- Claim C10 (amended): the distribution works on raw field values: a
missing value (`null` or the empty string) is excluded from the
summary's non-missing values, yet — provided the qualifying field's
name is non-empty (truthy; a field named the empty string is falsy and
the placeholder distribution is shown instead) — appears in the
distribution under its own stringified label with its own occurrence
count (stated for distributions small enough that the top-8 cut drops
nothing; the categorical eligibility test likewise ranges over raw
values, which is what `hcat` together with such a `v` exhibits). -/
theorem distribution_counts_missing_values (data : List Record) (rand : ℕ → ℚ)
    (f : String) (v : Value)
    (hcat : categoricalFieldOf data = some f)
    (hf : f ≠ "")
    (hsize : ((valuesOf data f).map jsToString).dedup.length ≤ 8)
    (hv : v ∈ valuesOf data f)
    (hmiss : isNonMissing v = false) :
    v ∉ nonNullValuesOf data f ∧
    (jsToString v, (((valuesOf data f).map jsToString).count (jsToString v) : ℚ)) ∈
      (analyzeFrontendData data rand).distribution.labels.zip
        (analyzeFrontendData data rand).distribution.values := by
  have hne : data.length ≠ 0 := by
    intro h0
    rw [List.length_eq_zero.mp h0] at hcat
    simp [categoricalFieldOf, fieldsOf] at hcat
  have hshape : (analyzeFrontendData data rand).distribution = distributionOf data := by
    unfold analyzeFrontendData
    rw [if_neg hne]
  have hd : distributionOf data =
      ⟨(((countsFor data f).mergeSort fun a b => decide (b.2 ≤ a.2)).take 8).map Prod.fst,
       (((countsFor data f).mergeSort fun a b => decide (b.2 ≤ a.2)).take 8).map
         fun p => (p.2 : ℚ)⟩ := by
    unfold distributionOf
    rw [hcat]
    exact if_neg hf
  constructor
  · intro hmemnn
    have hfil := List.of_mem_filter hmemnn
    rw [hmiss] at hfil
    exact Bool.noConfusion hfil
  · obtain ⟨hnd, hmem⟩ := countsFor_inv data f
    have hpair : (jsToString v, ((valuesOf data f).map jsToString).count (jsToString v)) ∈
        countsFor data f :=
      (hmem _ _).mpr ⟨List.mem_map_of_mem _ hv, rfl⟩
    have hsortmem : (jsToString v, ((valuesOf data f).map jsToString).count (jsToString v)) ∈
        (countsFor data f).mergeSort fun a b => decide (b.2 ≤ a.2) :=
      List.mem_mergeSort.mpr hpair
    have hlen8 : ((countsFor data f).mergeSort fun a b => decide (b.2 ≤ a.2)).length ≤ 8 := by
      rw [List.length_mergeSort]
      exact le_trans (countsFor_length_le data f) hsize
    have htakeall : ((countsFor data f).mergeSort fun a b => decide (b.2 ≤ a.2)).take 8 =
        (countsFor data f).mergeSort fun a b => decide (b.2 ≤ a.2) :=
      List.take_of_length_le hlen8
    have hlab : (distributionOf data).labels =
        (((countsFor data f).mergeSort fun a b => decide (b.2 ≤ a.2)).take 8).map Prod.fst := by
      rw [hd]
    have hval : (distributionOf data).values =
        (((countsFor data f).mergeSort fun a b => decide (b.2 ≤ a.2)).take 8).map
          (fun p => (p.2 : ℚ)) := by
      rw [hd]
    rw [hshape, hlab, hval, List.zip_map']
    refine List.mem_map.mpr
      ⟨(jsToString v, ((valuesOf data f).map jsToString).count (jsToString v)), ?_, rfl⟩
    rw [htakeall]
    exact hsortmem

/-- Witness for the amended C10: an eight-record list whose only field
is named "c" (truthy) and holds three `null`s, two empty strings and
three "x"s; `null` is missing yet labelled "null" with count 3 in the
distribution. -/
theorem distribution_counts_missing_values_witness :
    Value.null ∉ nonNullValuesOf
      [[("c", Value.null)], [("c", Value.null)], [("c", Value.null)],
       [("c", Value.str "")], [("c", Value.str "")],
       [("c", Value.str "x")], [("c", Value.str "x")], [("c", Value.str "x")]] "c" ∧
    (jsToString Value.null,
      (((valuesOf
        [[("c", Value.null)], [("c", Value.null)], [("c", Value.null)],
         [("c", Value.str "")], [("c", Value.str "")],
         [("c", Value.str "x")], [("c", Value.str "x")], [("c", Value.str "x")]] "c").map
          jsToString).count (jsToString Value.null) : ℚ)) ∈
      (analyzeFrontendData
        [[("c", Value.null)], [("c", Value.null)], [("c", Value.null)],
         [("c", Value.str "")], [("c", Value.str "")],
         [("c", Value.str "x")], [("c", Value.str "x")], [("c", Value.str "x")]]
        fun _ => 0).distribution.labels.zip
        (analyzeFrontendData
          [[("c", Value.null)], [("c", Value.null)], [("c", Value.null)],
           [("c", Value.str "")], [("c", Value.str "")],
           [("c", Value.str "x")], [("c", Value.str "x")], [("c", Value.str "x")]]
          fun _ => 0).distribution.values :=
  distribution_counts_missing_values
    [[("c", Value.null)], [("c", Value.null)], [("c", Value.null)],
     [("c", Value.str "")], [("c", Value.str "")],
     [("c", Value.str "x")], [("c", Value.str "x")], [("c", Value.str "x")]]
    (fun _ => 0) "c" Value.null (by decide) (by decide) (by decide) (by decide) (by decide)

/-- Claim C9 counterexample: a one-record list whose first (and only)
field is named the empty string and holds only `null` satisfies the
claim's hypotheses — the field search does find it — but the falsy
field name sends the program to the synthetic fallback: the trend has
10 values, not the single all-zero value the claim requires for a
one-record list. -/
theorem trend_null_empty_named_field_cex :
    numericFieldOf [[("", Value.null)]] = some "" ∧
    (analyzeFrontendData [[("", Value.null)]] fun _ => 0).trends.values.length = 10 ∧
    (analyzeFrontendData [[("", Value.null)]] fun _ => 0).trends.values ≠
      List.replicate (min 10 [[("", Value.null)]].length) 0 := by
  have h10 : (analyzeFrontendData [[("", Value.null)]]
      fun _ => 0).trends.values.length = 10 := by decide
  refine ⟨by decide, h10, ?_⟩
  intro h
  rw [h] at h10
  simp at h10

/-- Claim C9 (amended): when the first declared field carries only
`null` or empty-string values, it is found as the trend field (ahead of
any genuinely numeric later field, since `Number(null)` and
`Number('')` coerce to 0); when its name is a non-empty string (truthy)
every trend value is 0 and the synthetic fallback never runs. (A found
field named the empty string is falsy and the synthetic fallback runs
instead.) -/
theorem trend_selects_null_empty_first_field (data : List Record) (rand : ℕ → ℚ)
    (f0 : String) (rest : List String)
    (hf0 : f0 ≠ "")
    (hfields : fieldsOf data = f0 :: rest)
    (hvals : ∀ row ∈ data, getField row f0 = Value.null ∨ getField row f0 = Value.str "") :
    numericFieldOf data = some f0 ∧
    (analyzeFrontendData data rand).trends.values = List.replicate (min 10 data.length) 0 := by
  obtain ⟨r, data', rfl⟩ : ∃ r data', data = r :: data' := by
    cases data with
    | nil => simp [fieldsOf] at hfields
    | cons r data' => exact ⟨r, data', rfl⟩
  have hparse : ∀ row ∈ r :: data', (jsToNumber (getField row f0)).isSome = true := by
    intro row hrow
    rcases hvals row hrow with h | h <;> rw [h] <;> rfl
  have hfind : numericFieldOf (r :: data') = some f0 := by
    unfold numericFieldOf
    rw [hfields]
    refine List.find?_cons_of_pos _ ?_
    refine List.any_eq_true.mpr ⟨getField r f0, ?_, hparse r (List.mem_cons_self r data')⟩
    exact List.mem_map_of_mem _ (List.mem_cons_self r data')
  refine ⟨hfind, ?_⟩
  have hlen : (r :: data').length ≠ 0 := by simp
  unfold analyzeFrontendData
  rw [if_neg hlen]
  show trendValues (r :: data') rand = _
  unfold trendValues
  rw [hfind]
  show (if f0 = "" then (List.range 10).map fun i => rand i * 100
      else (List.map (fun row => jsOrZero (jsToNumber (getField row f0)))
        (List.take 10 (r :: data')))) = _
  rw [if_neg hf0]
  have hzero : ∀ row ∈ (r :: data').take 10,
      jsOrZero (jsToNumber (getField row f0)) = 0 := by
    intro row hrow
    rcases hvals row (List.mem_of_mem_take hrow) with h | h <;> rw [h] <;> rfl
  rw [List.map_congr_left hzero]
  show List.map (Function.const Record (0 : ℚ)) _ = _
  rw [List.map_const, List.length_take]

/-- Witness for the amended C9: the first field has a non-empty name
and holds only `null`/empty values while the second field is genuinely
numeric, yet the first is selected and the trend is all zeros. -/
theorem trend_selects_null_empty_first_field_witness :
    numericFieldOf
        [[("a", Value.null), ("b", Value.str "7")],
         [("a", Value.str ""), ("b", Value.str "8")]] = some "a" ∧
    (analyzeFrontendData
        [[("a", Value.null), ("b", Value.str "7")],
         [("a", Value.str ""), ("b", Value.str "8")]] fun _ => 0).trends.values =
      List.replicate (min 10
        [[("a", Value.null), ("b", Value.str "7")],
         [("a", Value.str ""), ("b", Value.str "8")]].length) 0 :=
  trend_selects_null_empty_first_field _ _ "a" ["b"] (by decide) (by decide) (by decide)
